import Mathlib

/-!
# icbd: framing, session teardown, listener backpressure, privilege bootstrap, logger

A shallow embedding of `src/icbd.c` and `src/logger.c`.

* Bytes are natural numbers; an `unsigned char` read is taken modulo 256 and
  `size_t` arithmetic is taken modulo `2 ^ 64`.
* Calls that leave the translated code (`icb_input`, `icb_remove`, `close`,
  `free`, ...) are recorded, in order, in a trace.
* The result of `icb_input` is supplied by an oracle indexed by the number of
  earlier calls, so any sequence of results can be played. The collaborators
  `icb_input` and `icb_remove` are taken not to change the framing fields or
  the two lifecycle flags of the session themselves; a teardown from inside
  `icb_input` is a drop in the history of the session.
* The loop of `icbd_dispatch` runs on fuel; the theorems show that the fuel
  given by `icbd_dispatch` is enough, so every statement of a result is also
  a statement that the callback returns.
-/

namespace Icbd

/-! ## Constants of `icb.h` -/

/-- Modelled from the spec: the capacity of the session receive buffer, the
macro `ICB_MSGSIZE` of `icb.h` (not among the sources); the buffer is "sized to
the maximum protocol message", a length byte of at most 255 plus the
terminator. -/
def ICB_MSGSIZE : Nat := 256

/-- Modulus of `size_t` arithmetic. -/
def SIZE_MOD : Nat := 2 ^ 64

/-- The macro `ISSETF(t, f)`, `((t) & (f))`, read as a C truth value. -/
def ISSETF (t f : Nat) : Bool := (t &&& f) != 0

/-- The macro `SETF(t, f)`, `((t) |= (f))`. -/
def SETF (t f : Nat) : Nat := t ||| f

/-! ## Session and world state -/

/-- The fields of `struct icb_session` that `icbd.c` reads or writes. -/
structure icb_session where
  buffer : List Nat
  length : Nat
  rlen : Nat
  flags : Nat
deriving DecidableEq

/-- Calls leaving the translated code, in the order they are made. -/
inductive Event where
  | icb_input (buffer : List Nat)
  | icb_remove (reason : Option String)
  | icbd_log (reason : String)
  | close
  | bufferevent_free
  | free
deriving DecidableEq

/-- The session, the input `evbuffer` of its `bufferevent`, the trace of
outside calls, and a ghost log of the stores made into `is->buffer` by
`icbd_dispatch` (bytes read, NUL terminator, `memset`), each as (first index,
number of bytes). -/
structure World where
  is : icb_session
  input : List Nat
  trace : List Event
  stores : List (Nat × Nat)
deriving DecidableEq

/-- A session in the awaiting-length state: no message in progress and the
buffer all zero. -/
def awaiting (flags : Nat) : icb_session :=
  { buffer := List.replicate ICB_MSGSIZE 0, length := 0, rlen := 0, flags := flags }

/-- A session as `calloc` returns it. -/
def zeroSession : icb_session := awaiting 0

/-- A new connection: zeroed session, nothing buffered, nothing called yet. -/
def freshWorld : World :=
  { is := zeroSession, input := [], trace := [], stores := [] }

/-- Store `data` at `buf[off ..]`; bytes that would fall outside `buf` are
not stored (the ghost log of `World.stores` is what records them). -/
def storeAt (buf : List Nat) (off : Nat) (data : List Nat) : List Nat :=
  (buf.take off ++ data ++ buf.drop (off + data.length)).take buf.length

/-- The statement `memset(is->buffer, 0, ICB_MSGSIZE)`. -/
def memsetZero (buf : List Nat) : List Nat :=
  storeAt buf 0 (List.replicate ICB_MSGSIZE 0)

/-! ## `icbd_drop` -/

/-- The function `icbd_drop` of `src/icbd.c`, for the flag masks
`ICB_SF_DNSINPROGRESS = dnsip` and `ICB_SF_PENDINGDROP = pend` of `icb.h`. -/
def icbd_drop (dnsip pend : Nat) (w : World) (reason : Option String) : World :=
  let notify : List Event :=
    match reason with
    | some r => [Event.icb_remove (some r), Event.icbd_log r]
    | none => [Event.icb_remove none]
  let cleared : icb_session :=
    { w.is with buffer := memsetZero w.is.buffer, rlen := 0, length := 0 }
  let released : List Event := [Event.close, Event.bufferevent_free]
  if !ISSETF cleared.flags dnsip then
    { w with is := cleared, trace := w.trace ++ notify ++ released ++ [Event.free] }
  else
    { w with is := { cleared with flags := SETF cleared.flags pend },
             trace := w.trace ++ notify ++ released }

/-! ## `icbd_dispatch` -/

/-- Number of `icb_input` calls recorded in a trace. -/
def inputCalls (t : List Event) : Nat :=
  (t.filter (fun e => match e with
    | Event.icb_input _ => true
    | _ => false)).length

/-- The second half of the loop body of `icbd_dispatch`, from "read as much
as we can" on. `Sum.inl` is a `return`, `Sum.inr` falls through to the loop
test. -/
def dispatchRead (oracle : Nat → Bool) (w : World) : World ⊕ World :=
  let want := (w.is.length + SIZE_MOD - w.is.rlen % SIZE_MOD) % SIZE_MOD
  let data := w.input.take want
  let res := data.length
  let w2 : World :=
    { w with
      is := { w.is with buffer := storeAt w.is.buffer w.is.rlen data,
                        rlen := (w.is.rlen + res) % SIZE_MOD },
      input := w.input.drop want,
      stores := w.stores ++ [(w.is.rlen, res)] }
  if w2.is.rlen < w2.is.length then
    Sum.inl w2
  else
    let at0 := min w2.is.rlen (ICB_MSGSIZE - 1)
    let w3 : World :=
      { w2 with is := { w2.is with buffer := storeAt w2.is.buffer at0 [0] },
                stores := w2.stores ++ [(at0, 1)] }
    let w4 : World := { w3 with trace := w3.trace ++ [Event.icb_input w3.is.buffer] }
    if oracle (inputCalls w3.trace) then
      Sum.inl w4
    else
      Sum.inr { w4 with is := { w4.is with buffer := memsetZero w4.is.buffer,
                                           rlen := 0, length := 0 },
                        stores := w4.stores ++ [(0, ICB_MSGSIZE)] }

/-- One pass through the body of the `while` loop of `icbd_dispatch`, entered
with `b :: rest` in the input buffer. -/
def dispatchBody (dnsip pend : Nat) (oracle : Nat → Bool) (w : World)
    (b : Nat) (rest : List Nat) : World ⊕ World :=
  if w.is.length == 0 then
    let length := b % 256
    if length == 0 then
      Sum.inl (icbd_drop dnsip pend { w with input := rest } (some "invalid packet"))
    else
      dispatchRead oracle
        { w with is := { w.is with length := length, rlen := 0 }, input := rest }
  else
    dispatchRead oracle { w with input := b :: rest }

/-- The `while` loop of `icbd_dispatch`; `none` when the fuel runs out. -/
def dispatchLoop (dnsip pend : Nat) (oracle : Nat → Bool) : Nat → World → Option World
  | fuel, w =>
    match w.input with
    | [] => some w
    | b :: rest =>
      match fuel with
      | 0 => none
      | fuel + 1 =>
        match dispatchBody dnsip pend oracle w b rest with
        | Sum.inl w1 => some w1
        | Sum.inr w1 => dispatchLoop dnsip pend oracle fuel w1

/-- The function `icbd_dispatch` of `src/icbd.c`: the read callback, run on
what the input buffer holds. -/
def icbd_dispatch (dnsip pend : Nat) (oracle : Nat → Bool) (w : World) : Option World :=
  dispatchLoop dnsip pend oracle (w.input.length + 1) w

/-- One readiness event: `chunk` is appended to the input buffer and the read
callback runs. -/
def deliver (dnsip pend : Nat) (oracle : Nat → Bool) (w : World) (chunk : List Nat) :
    Option World :=
  icbd_dispatch dnsip pend oracle { w with input := w.input ++ chunk }

/-- A sequence of readiness events, one per chunk. -/
def feed (dnsip pend : Nat) (oracle : Nat → Bool) : List (List Nat) → World → Option World
  | [], w => some w
  | c :: cs, w =>
    match deliver dnsip pend oracle w c with
    | none => none
    | some w1 => feed dnsip pend oracle cs w1

/-- The buffers `icb_input` was called with, in call order. -/
def inputsSeen : List Event → List (List Nat)
  | [] => []
  | Event.icb_input b :: t => b :: inputsSeen t
  | _ :: t => inputsSeen t

/-- The wire form of a message: the length byte, then the payload. -/
def frame (payload : List Nat) : List Nat := payload.length :: payload

/-- The wire form of a sequence of messages. -/
def frames : List (List Nat) → List Nat
  | [] => []
  | p :: ps => frame p ++ frames ps

/-- A session that has taken the length byte and the first `r` bytes of
`payload` into a buffer that was all zero. -/
def accumulating (flags : Nat) (payload : List Nat) (r : Nat) : icb_session :=
  { buffer := payload.take r ++ List.replicate (ICB_MSGSIZE - r) 0,
    length := payload.length, rlen := r, flags := flags }

/-- The bytes of a sequence of chunks, in arrival order. -/
def joinChunks : List (List Nat) → List Nat
  | [] => []
  | c :: cs => c ++ joinChunks cs

/-- The session once the first `k` bytes of the frame of `payload` have been
taken from an awaiting-length session: nothing yet, or the length byte and
`k - 1` bytes of payload. -/
def stateAt (flags : Nat) (payload : List Nat) : Nat → icb_session
  | 0 => awaiting flags
  | k + 1 => accumulating flags payload k

/-- What `icb_input` finds in `is->buffer` for a payload: the payload, then
NULs to the end of the buffer. -/
def delivered (payload : List Nat) : List Nat :=
  payload ++ List.replicate (ICB_MSGSIZE - payload.length) 0

/-- What can happen to a session: bytes arrive and the read callback runs, or
the session is dropped (by `icbd_ioerr`, or from inside `icb_input`). -/
inductive Action where
  | recv (chunk : List Nat)
  | drop (reason : Option String)
deriving DecidableEq

/-- A history of a session. -/
def run (dnsip pend : Nat) (oracle : Nat → Bool) : List Action → World → Option World
  | [], w => some w
  | Action.recv c :: rest, w =>
    match deliver dnsip pend oracle w c with
    | none => none
    | some w1 => run dnsip pend oracle rest w1
  | Action.drop r :: rest, w => run dnsip pend oracle rest (icbd_drop dnsip pend w r)

/-- The framing invariant together with the bound on the logged stores. -/
def Inv (w : World) : Prop :=
  w.is.length ≤ 255 ∧ w.is.rlen ≤ w.is.length ∧ w.is.buffer.length = ICB_MSGSIZE ∧
    ∀ s ∈ w.stores, s.1 + s.2 ≤ ICB_MSGSIZE

/-- Passes of the loop that are still possible: one per buffered byte, and one
more when the pending message is already complete. -/
def passes (w : World) : Nat :=
  w.input.length + (if w.is.length ≠ 0 ∧ w.is.length ≤ w.is.rlen then 1 else 0)

/-- Trace left by `icb_input` being called once per message. -/
def inputEvents (ps : List (List Nat)) : List Event :=
  ps.map (fun p => Event.icb_input (delivered p))

/-- Trace left by one `icbd_drop`, given whether the session is freed. -/
def dropEvents (reason : Option String) (freed : Bool) : List Event :=
  (match reason with
    | some r => [Event.icb_remove (some r), Event.icbd_log r]
    | none => [Event.icb_remove none])
  ++ [Event.close, Event.bufferevent_free] ++ (if freed then [Event.free] else [])

/-- Number of times `free(is)` is recorded in a trace. -/
def frees (t : List Event) : Nat := t.count Event.free

/-! ## Completion of name resolution -/

/-- Clearing the bits `f` in `t`. -/
def CLRF (t f : Nat) : Nat := t ^^^ (t &&& f)

/-- Modelled from the spec: the callback run when reverse name resolution
completes (`dns.c`, not among the sources). "it must check
pending-drop-requested; if set, it frees the Session at that point instead of
continuing normal post-resolution processing"; otherwise resolution is no
longer in progress. -/
def dns_done (dnsip pend : Nat) (w : World) : World :=
  if ISSETF w.is.flags pend then
    { w with trace := w.trace ++ [Event.free] }
  else
    { w with is := { w.is with flags := CLRF w.is.flags dnsip } }

/-! ## The listener: `icbd_accept` and `icbd_paused` -/

/-- The values of `errno` that `icbd_accept` tells apart. -/
inductive Errno where
  | EINTR
  | EWOULDBLOCK
  | ECONNABORTED
  | EMFILE
  | ENFILE
  | other (code : Nat)
deriving DecidableEq

/-- What `accept` returned: a descriptor, or -1 with `errno` set. -/
inductive AcceptResult where
  | ok (s : Nat)
  | fail (errno : Errno)
deriving DecidableEq

/-- The part of `struct icbd_listener` the event loop sees: whether the read
event `ev` is registered, and the timeout `(tv_sec, tv_usec)` of the timer
`pause` while it is pending. -/
structure icbd_listener where
  ev : Bool
  pause : Option (Nat × Nat)
deriving DecidableEq

/-- The function `icbd_accept` of `src/icbd.c`, as far as the listener goes:
the session set-up after a successful `accept` does not touch it. -/
def icbd_accept (l : icbd_listener) (r : AcceptResult) : icbd_listener :=
  match r with
  | AcceptResult.fail Errno.EINTR => l
  | AcceptResult.fail Errno.EWOULDBLOCK => l
  | AcceptResult.fail Errno.ECONNABORTED => l
  | AcceptResult.fail Errno.EMFILE => { ev := false, pause := some (1, 0) }
  | AcceptResult.fail Errno.ENFILE => { ev := false, pause := some (1, 0) }
  | AcceptResult.fail (Errno.other _) => l
  | AcceptResult.ok _ => l

/-- The function `icbd_paused` of `src/icbd.c`: `event_add(&l->ev, NULL)`. -/
def icbd_paused (l : icbd_listener) : icbd_listener :=
  { l with ev := true }

/-- What the event loop does with a listener: the read event fires, with some
outcome of `accept`, or the one-shot timer expires. -/
inductive ListenerStep where
  | readable (r : AcceptResult)
  | expire
deriving DecidableEq

/-- One step of the event loop on a listener: a callback runs only while its
event is registered, and a timer is no longer pending once it has fired. -/
def listenerStep (l : icbd_listener) : ListenerStep → icbd_listener
  | ListenerStep.readable r => if l.ev then icbd_accept l r else l
  | ListenerStep.expire =>
    match l.pause with
    | some _ => icbd_paused { l with pause := none }
    | none => l

/-- The listener as `main` leaves it: `event_add` on `ev`, `evtimer_set` on
`pause`. -/
def listenerInit : icbd_listener := { ev := true, pause := none }

/-- The listener after a sequence of steps. -/
def listenerRun (l : icbd_listener) : List ListenerStep → icbd_listener
  | [] => l
  | s :: rest => listenerRun (listenerStep l s) rest

/-! ## Privilege bootstrap: `icbd_restrict` and the end of `main` -/

/-- Exit status `EX_NOUSER` of `sysexits.h`. -/
def EX_NOUSER : Nat := 67

/-- Exit status `EX_UNAVAILABLE` of `sysexits.h`. -/
def EX_UNAVAILABLE : Nat := 69

/-- Exit status `EX_NOPERM` of `sysexits.h`. -/
def EX_NOPERM : Nat := 77

/-- Exit status `EX_DATAERR` of `sysexits.h`. -/
def EX_DATAERR : Nat := 65

/-- Mode bit `S_IWGRP` of `sys/stat.h`, octal 020. -/
def S_IWGRP : Nat := 16

/-- Mode bit `S_IWOTH` of `sys/stat.h`, octal 002. -/
def S_IWOTH : Nat := 2

/-- The macro `ICBD_USER` of `src/icbd.h`. -/
def ICBD_USER : String := "_icbd"

/-- The fields of `struct passwd` that `icbd_restrict` reads. -/
structure passwd where
  pw_name : String
  pw_uid : Nat
  pw_dir : String
deriving DecidableEq

/-- The fields of `struct stat` that `icbd_restrict` reads. -/
structure stat where
  st_uid : Nat
  st_mode : Nat
deriving DecidableEq

/-- What the system answers to each call `icbd_restrict` makes, and the two
compile-time and run-time switches it reads. -/
structure RestrictEnv where
  getpwnam : Option passwd
  stat_ret : Int
  sb : stat
  chroot_ret : Int
  chdir_root_ret : Int
  chdir_home_ret : Int
  setuid_ret : Int
  openbsd : Bool
  dodns : Int
  pledge_ret : Int
deriving DecidableEq

/-- Calls made during start-up, in order. -/
inductive Sys where
  | getpwnam (name : String)
  | stat (path : String)
  | chroot (path : String)
  | chdir (path : String)
  | setuid (uid : Nat)
  | pledge (promises : String)
  | setproctitle (title : String)
  | syslog (msg : String)
  | logger_init
  | res_init
  | icbd_modupdate
  | signal
  | event_dispatch
deriving DecidableEq

/-- A run of start-up code: the calls made, and the exit status when the
process ended there (`none`: the code returned to its caller). -/
structure Proc where
  calls : List Sys
  exit : Option Nat
deriving DecidableEq

/-- The function `icbd_restrict` of `src/icbd.c`; `home` is the macro
`ICBD_HOME`, and `env.openbsd` says whether `__OpenBSD__` is defined. Log
lines are recorded by their format strings. -/
def icbd_restrict (home : String) (env : RestrictEnv) : Proc :=
  let c0 := [Sys.getpwnam ICBD_USER]
  match env.getpwnam with
  | none => { calls := c0 ++ [Sys.syslog "No passwd entry for %s"], exit := some EX_NOUSER }
  | some pw =>
    let c1 := c0 ++ [Sys.stat pw.pw_dir]
    if env.stat_ret == -1 then
      { calls := c1 ++ [Sys.syslog "%s: %m"], exit := some EX_NOPERM }
    else if env.sb.st_uid != 0 || (env.sb.st_mode &&& (S_IWGRP ||| S_IWOTH)) != 0 then
      { calls := c1 ++ [Sys.syslog "bad directory permissions"], exit := some EX_NOPERM }
    else
      let c2 := c1 ++ [Sys.chroot pw.pw_dir]
      if env.chroot_ret < 0 then
        { calls := c2 ++ [Sys.syslog "%s: %m"], exit := some EX_UNAVAILABLE }
      else
        let c3 := c2 ++ [Sys.chdir "/"]
        if env.chdir_root_ret < 0 then
          { calls := c3 ++ [Sys.syslog ("/" ++ home ++ ": %m")], exit := some EX_UNAVAILABLE }
        else
          let c4 := c3 ++ [Sys.chdir home]
          let c5 := c4 ++ [Sys.setuid pw.pw_uid]
          if env.setuid_ret < 0 then
            { calls := c5 ++ [Sys.syslog "%d: %m"], exit := some EX_NOPERM }
          else if env.openbsd then
            if env.dodns != 0 then
              let c6 := c5 ++ [Sys.pledge "stdio inet rpath dns"]
              if env.pledge_ret == -1 then
                { calls := c6 ++ [Sys.syslog "pledge"], exit := some EX_NOPERM }
              else
                { calls := c6 ++ [Sys.setproctitle "icbd"], exit := none }
            else
              let c6 := c5 ++ [Sys.pledge "stdio inet rpath"]
              if env.pledge_ret == -1 then
                { calls := c6 ++ [Sys.syslog "pledge"], exit := some EX_NOPERM }
              else
                { calls := c6 ++ [Sys.setproctitle "icbd"], exit := none }
          else
            { calls := c5 ++ [Sys.setproctitle "icbd"], exit := none }

/-- The end of `main` in `src/icbd.c`, from "start the logger service" on, in
the connection-handling process: the listening sockets are bound and
registered by then, and connections are accepted only inside
`event_dispatch`. -/
def main (home : String) (env : RestrictEnv) : Proc :=
  let c0 := [Sys.logger_init, Sys.res_init]
  let r := icbd_restrict home env
  match r.exit with
  | some code => { calls := c0 ++ r.calls, exit := some code }
  | none =>
    { calls := c0 ++ r.calls ++ [Sys.icbd_modupdate, Sys.signal, Sys.event_dispatch,
        Sys.syslog "event_dispatch: %m"],
      exit := some EX_UNAVAILABLE }

/-! ## The logger: `logger` and `logger_dispatch` -/

/-- The flag `EV_READ` of `event.h`. -/
def EV_READ : Nat := 2

/-- The record `struct icbd_logentry` of `src/logger.c`; the character arrays
are lists of `ICB_MAXGRPLEN` and `ICB_MAXNICKLEN` bytes. -/
structure icbd_logentry where
  timestamp : Int
  group : List Nat
  nick : List Nat
  length : Nat
deriving DecidableEq

/-- The C string at the start of a piece of memory: the bytes before the
first NUL. -/
def cstr (mem : List Nat) : List Nat := mem.takeWhile (fun b => b != 0)

/-- The library function `strlen`. -/
def strlen (mem : List Nat) : Nat := (cstr mem).length

/-- The library function `strlcpy(dst, src, size)`: the new contents of
`dst`. -/
def strlcpy (dst src : List Nat) (size : Nat) : List Nat :=
  if size == 0 then dst
  else storeAt dst 0 ((cstr src).take (size - 1) ++ [0])

/-- The function `logger` of `src/logger.c`: the two pieces handed to
`writev`, the header and `e.length` bytes at `what`. The header starts as `e0`,
whatever the stack held; `maxgrp` and `maxnick` are the macros
`ICB_MAXGRPLEN` and `ICB_MAXNICKLEN` of `icb.h`. -/
def logger (maxgrp maxnick : Nat) (e0 : icbd_logentry) (timestamp : Int)
    (group nick what : List Nat) : icbd_logentry × List Nat :=
  let e : icbd_logentry :=
    { timestamp := timestamp,
      group := strlcpy e0.group group maxgrp,
      nick := strlcpy e0.nick nick maxnick,
      length := strlen what + 1 }
  (e, what.take e.length)

/-- What `readv` returned in `logger_dispatch`: fewer bytes than a header (or
-1), or a whole header and the payload bytes that followed it. -/
inductive Readv where
  | short
  | full (hdr : icbd_logentry) (payload : List Nat)
deriving DecidableEq

/-- What one call of `logger_dispatch` does: the diagnostics sent to `syslog`,
the line written to `stderr`, and the exit status when the process ends. -/
structure LoggerOut where
  syslog : List String
  stderr : Option (List Nat)
  exit : Option Nat
deriving DecidableEq

/-- The size of the scratch buffer `buf` of `logger_dispatch`. -/
def LOGBUF : Nat := 512

/-- The function `logger_dispatch` of `src/logger.c`; `buf0` is what the
scratch buffer held on entry. The diagnostics are recorded by their format
strings, and the line written is `"%s@%s: %s\n"` of the nickname, the group
and the scratch buffer (a string the buffer does not terminate is cut at its
end). -/
def logger_dispatch (event : Nat) (buf0 : List Nat) (r : Readv) : LoggerOut :=
  if event != EV_READ then
    { syslog := [], stderr := none, exit := none }
  else
    match r with
    | Readv.short => { syslog := ["logger read: %m"], stderr := none, exit := some EX_DATAERR }
    | Readv.full e payload =>
      let buf := storeAt buf0 0 (payload.take LOGBUF)
      let iov_len := LOGBUF
      let diag := if iov_len < e.length then ["logger read %lu out of %lu"] else []
      { syslog := diag,
        stderr := some (cstr e.nick ++ [64] ++ cstr e.group ++ [58, 32] ++ cstr buf ++ [10]),
        exit := none }

/-- The bytes of an ASCII string. -/
def ascii (s : String) : List Nat := s.toList.map Char.toNat

/-! ## Concrete inputs -/

/-- A header and a scratch buffer with nothing in them. -/
def blankHeader : icbd_logentry :=
  { timestamp := 0, group := List.replicate 32 0, nick := List.replicate 32 0, length := 0 }

/-- Answers of the system with which every checked step of `icbd_restrict`
succeeds on a root-owned directory of mode 0755, and `chdir(ICBD_HOME)`
returns `chdirHome`. -/
def sampleEnv (chdirHome : Int) (mode : Nat) : RestrictEnv :=
  { getpwnam := some { pw_name := "_icbd", pw_uid := 700, pw_dir := "/var/icbd" },
    stat_ret := 0,
    sb := { st_uid := 0, st_mode := mode },
    chroot_ret := 0,
    chdir_root_ret := 0,
    chdir_home_ret := chdirHome,
    setuid_ret := 0,
    openbsd := true,
    dodns := 1,
    pledge_ret := 0 }

/-! ## Lemmas on the buffer and on one pass of the dispatch loop -/

theorem want_eq (length rlen : Nat) (h : rlen ≤ length) (hl : length < SIZE_MOD) :
    (length + SIZE_MOD - rlen % SIZE_MOD) % SIZE_MOD = length - rlen := by
  have hr : rlen < SIZE_MOD := lt_of_le_of_lt h hl
  rw [Nat.mod_eq_of_lt hr]
  have : length + SIZE_MOD - rlen = (length - rlen) + SIZE_MOD := by omega
  rw [this, Nat.add_mod_right]
  exact Nat.mod_eq_of_lt (by omega)

theorem storeAt_length (buf : List Nat) (off : Nat) (data : List Nat) :
    (storeAt buf off data).length = buf.length := by
  unfold storeAt
  simp only [List.length_take, List.length_append, List.length_drop]
  omega

theorem memsetZero_length (buf : List Nat) : (memsetZero buf).length = buf.length :=
  storeAt_length _ _ _

theorem memsetZero_eq (buf : List Nat) (h : buf.length = ICB_MSGSIZE) :
    memsetZero buf = List.replicate ICB_MSGSIZE 0 := by
  unfold memsetZero storeAt
  simp [h]

theorem storeAt_nil (buf : List Nat) (off : Nat) : storeAt buf off [] = buf := by
  unfold storeAt
  simp

theorem dispatchRead_inv (oracle : Nat → Bool) (w : World) (h : Inv w) :
    match dispatchRead oracle w with
    | Sum.inl w1 => Inv w1
    | Sum.inr w1 => Inv w1 ∧ w1.is.length = 0 ∧
        w1.input.length + (w.is.length - w.is.rlen) ≤ w.input.length := by
  obtain ⟨h1, h2, h3, h4⟩ := h
  have hw := want_eq w.is.length w.is.rlen h2 (by unfold SIZE_MOD; omega)
  have hlen : (w.input.take (w.is.length - w.is.rlen)).length ≤ w.is.length - w.is.rlen := by
    simp
  have hmod : (w.is.rlen + (w.input.take (w.is.length - w.is.rlen)).length) % SIZE_MOD
      = w.is.rlen + (w.input.take (w.is.length - w.is.rlen)).length :=
    Nat.mod_eq_of_lt (by unfold SIZE_MOD; omega)
  unfold dispatchRead
  simp only [hw, hmod]
  split_ifs with c1 c2
  · refine ⟨h1, ?_, ?_, ?_⟩
    · simp only; omega
    · simp only [storeAt_length]; exact h3
    · intro s hs
      simp only [List.mem_append, List.mem_singleton] at hs
      rcases hs with hs | hs
      · exact h4 s hs
      · subst hs; simp only [ICB_MSGSIZE]; omega
  · refine ⟨h1, ?_, ?_, ?_⟩
    · simp only; omega
    · simp only [storeAt_length]; exact h3
    · intro s hs
      simp only [List.mem_append, List.mem_singleton] at hs
      rcases hs with (hs | hs) | hs
      · exact h4 s hs
      · subst hs; simp only [ICB_MSGSIZE]; omega
      · subst hs; simp only [ICB_MSGSIZE]; omega
  · refine ⟨⟨?_, ?_, ?_, ?_⟩, rfl, ?_⟩
    · simp
    · simp
    · simp only [memsetZero_length, storeAt_length]; exact h3
    · intro s hs
      simp only [List.mem_append, List.mem_singleton] at hs
      rcases hs with ((hs | hs) | hs) | hs
      · exact h4 s hs
      · subst hs; simp only [ICB_MSGSIZE]; omega
      · subst hs; simp only [ICB_MSGSIZE]; omega
      · subst hs; simp
    · simp only [List.length_drop, List.length_take] at *
      omega

theorem icbd_drop_inv (dnsip pend : Nat) (w : World) (reason : Option String)
    (h : w.is.buffer.length = ICB_MSGSIZE ∧ ∀ s ∈ w.stores, s.1 + s.2 ≤ ICB_MSGSIZE) :
    Inv (icbd_drop dnsip pend w reason) := by
  obtain ⟨h3, h4⟩ := h
  unfold icbd_drop
  simp only
  split_ifs
  · exact ⟨by simp, by simp, by simp only [memsetZero_length]; exact h3, h4⟩
  · exact ⟨by simp, by simp, by simp only [memsetZero_length]; exact h3, h4⟩

theorem dispatchBody_inv (dnsip pend : Nat) (oracle : Nat → Bool) (w : World)
    (b : Nat) (rest : List Nat) (h : Inv w) (hin : w.input = b :: rest) :
    match dispatchBody dnsip pend oracle w b rest with
    | Sum.inl w1 => Inv w1
    | Sum.inr w1 => Inv w1 ∧ passes w1 < passes w := by
  unfold dispatchBody
  by_cases hz : w.is.length = 0
  · simp only [hz, beq_self_eq_true, if_true]
    by_cases hb : b % 256 = 0
    · simp only [hb, beq_self_eq_true, if_true]
      exact icbd_drop_inv _ _ _ _ ⟨h.2.2.1, h.2.2.2⟩
    · have hb2 : (b % 256 == 0) = false := by simpa using hb
      simp only [hb2, Bool.false_eq_true, if_false]
      have hi : Inv { w with is := { w.is with length := b % 256, rlen := 0 }, input := rest } :=
        ⟨by simp only; omega, by simp, h.2.2.1, h.2.2.2⟩
      have := dispatchRead_inv oracle _ hi
      revert this
      cases dispatchRead oracle
        { w with is := { w.is with length := b % 256, rlen := 0 }, input := rest } with
      | inl w1 => exact fun x => x
      | inr w1 =>
        rintro ⟨i1, i2, i3⟩
        refine ⟨i1, ?_⟩
        unfold passes
        simp only [i2, hin, List.length_cons, ne_eq, not_true_eq_false, false_and, if_false]
        simp only at i3
        omega
  · have hz2 : (w.is.length == 0) = false := by simpa using hz
    simp only [hz2, Bool.false_eq_true, if_false]
    have hw : ({ w with input := b :: rest } : World) = w := by
      cases w; simp only at hin; simp [hin]
    rw [hw]
    have := dispatchRead_inv oracle _ h
    revert this
    cases dispatchRead oracle w with
    | inl w1 => exact fun x => x
    | inr w1 =>
      rintro ⟨i1, i2, i3⟩
      refine ⟨i1, ?_⟩
      unfold passes
      simp only [i2, hin, List.length_cons, ne_eq, not_true_eq_false, false_and, if_false]
      rw [hin] at i3
      simp only [List.length_cons] at i3
      have := h.2.1
      split_ifs with c
      · omega
      · have : w.is.rlen < w.is.length := by
          by_contra hc
          exact c ⟨hz, by omega⟩
        omega

theorem dispatchLoop_inv (dnsip pend : Nat) (oracle : Nat → Bool) :
    ∀ (fuel : Nat) (w : World), Inv w → passes w ≤ fuel →
      ∃ w1, dispatchLoop dnsip pend oracle fuel w = some w1 ∧ Inv w1 := by
  intro fuel
  induction fuel with
  | zero =>
    intro w h hp
    cases hin : w.input with
    | nil => exact ⟨w, by unfold dispatchLoop; simp [hin], h⟩
    | cons b rest =>
      unfold passes at hp
      rw [hin] at hp
      simp at hp
  | succ n ih =>
    intro w h hp
    cases hin : w.input with
    | nil => exact ⟨w, by unfold dispatchLoop; simp [hin], h⟩
    | cons b rest =>
      have hb := dispatchBody_inv dnsip pend oracle w b rest h hin
      unfold dispatchLoop
      simp only [hin]
      revert hb
      cases dispatchBody dnsip pend oracle w b rest with
      | inl w1 => exact fun x => ⟨w1, rfl, x⟩
      | inr w1 =>
        rintro ⟨i1, i2⟩
        exact ih w1 i1 (by omega)

theorem icbd_dispatch_inv (dnsip pend : Nat) (oracle : Nat → Bool) (w : World) (h : Inv w) :
    ∃ w1, icbd_dispatch dnsip pend oracle w = some w1 ∧ Inv w1 := by
  unfold icbd_dispatch
  apply dispatchLoop_inv _ _ _ _ _ h
  unfold passes
  split_ifs <;> omega

theorem storeAt_accum (payload c rest : List Nat) (r : Nat) (hr : r ≤ payload.length)
    (hc : payload.drop r = c ++ rest) (hL : payload.length < ICB_MSGSIZE) :
    storeAt (payload.take r ++ List.replicate (ICB_MSGSIZE - r) 0) r c
      = payload.take (r + c.length) ++ List.replicate (ICB_MSGSIZE - (r + c.length)) 0 := by
  have hlen : c.length + rest.length = payload.length - r := by
    have := congrArg List.length hc
    simp only [List.length_drop, List.length_append] at this
    omega
  have htake : payload.take (r + c.length) = payload.take r ++ c := by
    rw [List.take_add, hc, List.take_left]
  have h1 : (payload.take r).length = r := by simp; omega
  unfold storeAt
  rw [List.take_left' h1, htake]
  have h2 : (payload.take r ++ List.replicate (ICB_MSGSIZE - r) 0).drop (r + c.length)
      = List.replicate (ICB_MSGSIZE - (r + c.length)) 0 := by
    rw [List.drop_append_eq_append_drop]
    have : (payload.take r).drop (r + c.length) = [] := by
      apply List.drop_eq_nil_of_le; omega
    rw [this, h1]
    simp only [List.nil_append, List.drop_replicate]
    congr 1
    omega
  rw [h2]
  apply List.take_of_length_le
  simp only [List.length_append, List.length_replicate, h1]
  omega

theorem storeAt_nul (payload : List Nat) (hL : payload.length < ICB_MSGSIZE) :
    storeAt (delivered payload) (min payload.length (ICB_MSGSIZE - 1)) [0] = delivered payload := by
  have hm : min payload.length (ICB_MSGSIZE - 1) = payload.length := by
    apply Nat.min_eq_left; omega
  rw [hm]
  unfold storeAt delivered
  rw [List.take_left, List.drop_append_eq_append_drop]
  have : payload.drop (payload.length + [0].length) = [] := by
    apply List.drop_eq_nil_of_le; omega
  rw [this]
  simp only [List.nil_append, List.drop_replicate, List.length_singleton, List.append_assoc,
    List.length_append, List.length_replicate]
  have e : ICB_MSGSIZE - payload.length = (ICB_MSGSIZE - payload.length - (payload.length + 1 - payload.length)) + 1 := by
    omega
  have h3 : [0] ++ List.replicate (ICB_MSGSIZE - payload.length - (payload.length + 1 - payload.length)) 0
      = List.replicate (ICB_MSGSIZE - payload.length) 0 := by
    conv_rhs => rw [e, List.replicate_succ]
    rfl
  rw [h3]
  apply List.take_of_length_le
  simp

theorem accumulating_full (f : Nat) (payload : List Nat) :
    accumulating f payload payload.length
      = { buffer := delivered payload, length := payload.length,
          rlen := payload.length, flags := f } := by
  unfold accumulating delivered
  simp

theorem dispatchRead_short (oracle : Nat → Bool) (w : World) (f : Nat)
    (payload c rest : List Nat) (r : Nat)
    (his : w.is = accumulating f payload r) (hin : w.input = c)
    (hc : payload.drop r = c ++ rest) (hrest : rest ≠ [])
    (hL : payload.length < ICB_MSGSIZE) :
    dispatchRead oracle w = Sum.inl
      { w with is := accumulating f payload (r + c.length), input := [],
               stores := w.stores ++ [(r, c.length)] } := by
  have hlen : c.length + rest.length = payload.length - r := by
    have := congrArg List.length hc
    simp only [List.length_drop, List.length_append] at this
    omega
  have hrl : 0 < rest.length := List.length_pos.mpr hrest
  have hr : r ≤ payload.length := by omega
  have hw := want_eq payload.length r hr (by unfold SIZE_MOD; unfold ICB_MSGSIZE at hL; omega)
  have htk : c.take (payload.length - r) = c := List.take_of_length_le (by omega)
  have hdr : c.drop (payload.length - r) = [] := List.drop_eq_nil_of_le (by omega)
  have hmod : (r + c.length) % SIZE_MOD = r + c.length :=
    Nat.mod_eq_of_lt (by unfold SIZE_MOD; unfold ICB_MSGSIZE at hL; omega)
  have hlt : r + c.length < payload.length := by omega
  unfold dispatchRead
  simp only [his, hin, accumulating, hw, htk, hdr, hmod, hlt, if_true]
  rw [storeAt_accum payload c rest r hr hc hL]

theorem dispatchRead_full (oracle : Nat → Bool) (w : World) (f : Nat)
    (payload tail : List Nat) (r : Nat)
    (his : w.is = accumulating f payload r) (hin : w.input = payload.drop r ++ tail)
    (hr : r ≤ payload.length) (hL : payload.length < ICB_MSGSIZE) :
    dispatchRead oracle w =
      if oracle (inputCalls w.trace) then
        Sum.inl { is := accumulating f payload payload.length, input := tail,
                  trace := w.trace ++ [Event.icb_input (delivered payload)],
                  stores := w.stores ++ [(r, payload.length - r)]
                    ++ [(min payload.length (ICB_MSGSIZE - 1), 1)] }
      else
        Sum.inr { is := awaiting f, input := tail,
                  trace := w.trace ++ [Event.icb_input (delivered payload)],
                  stores := w.stores ++ [(r, payload.length - r)]
                    ++ [(min payload.length (ICB_MSGSIZE - 1), 1)] ++ [(0, ICB_MSGSIZE)] } := by
  have hw := want_eq payload.length r hr (by unfold SIZE_MOD; unfold ICB_MSGSIZE at hL; omega)
  have hdl : (payload.drop r).length = payload.length - r := by simp
  have htk : (payload.drop r ++ tail).take (payload.length - r) = payload.drop r := by
    rw [← hdl, List.take_left]
  have hdr : (payload.drop r ++ tail).drop (payload.length - r) = tail := by
    rw [← hdl, List.drop_left]
  have hmod : (r + (payload.length - r)) % SIZE_MOD = payload.length := by
    rw [Nat.mod_eq_of_lt (by unfold SIZE_MOD; unfold ICB_MSGSIZE at hL; omega)]
    omega
  have hb := storeAt_accum payload (payload.drop r) [] r hr (by simp) hL
  rw [hdl] at hb
  have hrr : r + (payload.length - r) = payload.length := by omega
  rw [hrr] at hb
  have hb2 : List.take payload.length payload ++ List.replicate (ICB_MSGSIZE - payload.length) 0
      = delivered payload := by
    unfold delivered; simp
  rw [hb2] at hb
  have hn := storeAt_nul payload hL
  have hm : memsetZero (delivered payload) = List.replicate ICB_MSGSIZE 0 := by
    apply memsetZero_eq
    unfold delivered
    simp only [List.length_append, List.length_replicate]
    omega
  unfold dispatchRead
  simp only [his, hin, accumulating, hw, htk, hdr, hdl, hmod, lt_irrefl, if_false, hb, hn, hm]
  simp only [List.take_length, awaiting, delivered]

theorem inputCalls_snoc (t : List Event) (b : List Nat) :
    inputCalls (t ++ [Event.icb_input b]) = inputCalls t + 1 := by
  unfold inputCalls
  simp

theorem dispatchBody_frame (dnsip pend : Nat) (oracle : Nat → Bool) (w : World) (f : Nat)
    (p tail : List Nat) (his : w.is = awaiting f)
    (h1 : 1 ≤ p.length) (h2 : p.length ≤ 255) :
    dispatchBody dnsip pend oracle w p.length (p ++ tail) =
      if oracle (inputCalls w.trace) then
        Sum.inl { is := accumulating f p p.length, input := tail,
                  trace := w.trace ++ [Event.icb_input (delivered p)],
                  stores := w.stores ++ [(0, p.length - 0)]
                    ++ [(min p.length (ICB_MSGSIZE - 1), 1)] }
      else
        Sum.inr { is := awaiting f, input := tail,
                  trace := w.trace ++ [Event.icb_input (delivered p)],
                  stores := w.stores ++ [(0, p.length - 0)]
                    ++ [(min p.length (ICB_MSGSIZE - 1), 1)] ++ [(0, ICB_MSGSIZE)] } := by
  have hm : p.length % 256 = p.length := Nat.mod_eq_of_lt (by omega)
  have hne : (p.length == 0) = false := by
    simp only [beq_eq_false_iff_ne, ne_eq]; omega
  unfold dispatchBody
  simp only [his, awaiting, beq_self_eq_true, if_true, hm, hne, Bool.false_eq_true, if_false]
  exact dispatchRead_full oracle _ f p tail 0 (by simp [accumulating]) (by simp)
    (Nat.zero_le _) (by unfold ICB_MSGSIZE; omega)

theorem dispatchBody_first_short (dnsip pend : Nat) (oracle : Nat → Bool) (w : World)
    (f : Nat) (p c rest : List Nat) (his : w.is = awaiting f)
    (hc : p = c ++ rest) (hrest : rest ≠ []) (h2 : p.length ≤ 255) :
    dispatchBody dnsip pend oracle w p.length c = Sum.inl
      { w with is := accumulating f p c.length, input := [],
               stores := w.stores ++ [(0, c.length)] } := by
  have hrl : 0 < rest.length := List.length_pos.mpr hrest
  have hpl : p.length = c.length + rest.length := by rw [hc]; simp
  have hm : p.length % 256 = p.length := Nat.mod_eq_of_lt (by omega)
  have hne : (p.length == 0) = false := by
    simp only [beq_eq_false_iff_ne, ne_eq]; omega
  unfold dispatchBody
  simp only [his, awaiting, beq_self_eq_true, if_true, hm, hne, Bool.false_eq_true, if_false]
  have := dispatchRead_short oracle
    { w with is := { buffer := List.replicate ICB_MSGSIZE 0, length := p.length, rlen := 0,
                     flags := f }, input := c } f p c rest 0
    (by simp [accumulating]) rfl (by simpa using hc) hrest (by unfold ICB_MSGSIZE; omega)
  simpa using this

theorem frames_length_ge (ps : List (List Nat)) : ps.length ≤ (frames ps).length := by
  induction ps with
  | nil => simp [frames]
  | cons p ps ih =>
    simp only [frames, frame, List.length_cons, List.length_append]
    omega

theorem inputCalls_inputEvents (t : List Event) (ps : List (List Nat)) :
    inputCalls (t ++ inputEvents ps) = inputCalls t + ps.length := by
  unfold inputCalls inputEvents
  simp only [List.filter_append, List.length_append]
  congr 1
  induction ps with
  | nil => rfl
  | cons p ps ih => simp [List.filter_cons, ih]

theorem dispatchLoop_frames (dnsip pend : Nat) (oracle : Nat → Bool) (f : Nat)
    (tail : List Nat) :
    ∀ (ps : List (List Nat)) (fuel : Nat) (w : World),
      (∀ p ∈ ps, 1 ≤ p.length ∧ p.length ≤ 255) →
      (∀ k, k < ps.length → oracle (inputCalls w.trace + k) = false) →
      w.is = awaiting f → w.input = frames ps ++ tail → ps.length ≤ fuel →
      ∃ st, dispatchLoop dnsip pend oracle fuel w =
        dispatchLoop dnsip pend oracle (fuel - ps.length)
          { is := awaiting f, input := tail, trace := w.trace ++ inputEvents ps, stores := st } := by
  intro ps
  induction ps with
  | nil =>
    intro fuel w _ _ his hin _
    refine ⟨w.stores, ?_⟩
    simp only [frames, List.nil_append] at hin
    simp only [List.length_nil, Nat.sub_zero, inputEvents, List.map_nil, List.append_nil]
    rw [← his, ← hin]
  | cons p ps ih =>
    intro fuel w hwf hor his hin hfuel
    obtain ⟨hp1, hp2⟩ := hwf p (List.mem_cons_self _ _)
    cases fuel with
    | zero => simp at hfuel
    | succ n =>
      have hin2 : w.input = p.length :: (p ++ (frames ps ++ tail)) := by
        rw [hin]; simp [frames, frame]
      have ho : oracle (inputCalls w.trace) = false := by
        have := hor 0 (by simp)
        simpa using this
      have hb := dispatchBody_frame dnsip pend oracle w f p (frames ps ++ tail) his hp1 hp2
      rw [ho] at hb
      simp only [Bool.false_eq_true, if_false] at hb
      obtain ⟨st, hst⟩ := ih n
        { is := awaiting f, input := frames ps ++ tail,
          trace := w.trace ++ [Event.icb_input (delivered p)],
          stores := w.stores ++ [(0, p.length - 0)] ++ [(min p.length (ICB_MSGSIZE - 1), 1)]
            ++ [(0, ICB_MSGSIZE)] }
        (fun q hq => hwf q (List.mem_cons_of_mem _ hq))
        (by
          intro k hk
          rw [inputCalls_snoc]
          have := hor (k + 1) (by simp only [List.length_cons]; omega)
          rw [← this]; congr 1; omega)
        rfl rfl (by simp only [List.length_cons] at hfuel; omega)
      refine ⟨st, ?_⟩
      rw [dispatchLoop]
      simp only [hin2, hb]
      rw [hst]
      simp only [List.length_cons, Nat.add_sub_add_right, inputEvents, List.map_cons,
        List.append_assoc, List.singleton_append]

theorem dispatchLoop_nil (dnsip pend : Nat) (oracle : Nat → Bool) (fuel : Nat) (w : World)
    (h : w.input = []) : dispatchLoop dnsip pend oracle fuel w = some w := by
  unfold dispatchLoop
  simp [h]

theorem dispatchLoop_cons (dnsip pend : Nat) (oracle : Nat → Bool) (fuel : Nat) (w : World)
    (b : Nat) (rest : List Nat) (h : w.input = b :: rest) :
    dispatchLoop dnsip pend oracle (fuel + 1) w =
      match dispatchBody dnsip pend oracle w b rest with
      | Sum.inl w1 => some w1
      | Sum.inr w1 => dispatchLoop dnsip pend oracle fuel w1 := by
  rw [dispatchLoop]
  simp [h]

theorem deliver_short (dnsip pend : Nat) (oracle : Nat → Bool) (f : Nat)
    (p c rest : List Nat) (k : Nat) (w : World)
    (his : w.is = stateAt f p k) (hin : w.input = [])
    (hc : (frame p).drop k = c ++ rest) (hrest : rest ≠ []) (h2 : p.length ≤ 255) :
    ∃ st, deliver dnsip pend oracle w c =
      some { is := stateAt f p (k + c.length), input := [], trace := w.trace, stores := st } := by
  unfold deliver icbd_dispatch
  simp only [hin, List.nil_append]
  cases c with
  | nil =>
    refine ⟨w.stores, ?_⟩
    rw [dispatchLoop_nil _ _ _ _ _ rfl]
    simp [his]
  | cons b c1 =>
    rw [dispatchLoop_cons _ _ _ _ _ b c1 rfl]
    cases k with
    | zero =>
      simp only [frame, List.drop_zero, List.cons_append, List.cons.injEq] at hc
      obtain ⟨hb, hp⟩ := hc
      subst hb
      have := dispatchBody_first_short dnsip pend oracle
        { w with input := p.length :: c1 } f p c1 rest his hp hrest h2
      rw [this]
      refine ⟨w.stores ++ [(0, c1.length)], ?_⟩
      simp only [List.length_cons, Nat.zero_add, stateAt]
    | succ k1 =>
      simp only [frame, List.drop_succ_cons] at hc
      simp only [stateAt] at his
      have hpl : p.length ≠ 0 := by
        intro h0
        have : p = [] := List.length_eq_zero.mp h0
        rw [this] at hc
        simp at hc
      have hz : (w.is.length == 0) = false := by
        rw [his]; simpa [accumulating] using hpl
      unfold dispatchBody
      simp only [hz, Bool.false_eq_true, if_false]
      have := dispatchRead_short oracle { w with input := b :: c1 } f p (b :: c1) rest k1
        his rfl hc hrest (by unfold ICB_MSGSIZE; omega)
      rw [this]
      refine ⟨w.stores ++ [(k1, (b :: c1).length)], ?_⟩
      have e : k1 + 1 + (b :: c1).length = (k1 + (b :: c1).length) + 1 := by omega
      rw [e]
      simp only [stateAt]

theorem deliver_full (dnsip pend : Nat) (oracle : Nat → Bool) (f : Nat)
    (p c : List Nat) (k : Nat) (w : World)
    (his : w.is = stateAt f p k) (hin : w.input = [])
    (hc : (frame p).drop k = c) (hk : k ≤ p.length)
    (h1 : 1 ≤ p.length) (h2 : p.length ≤ 255) :
    ∃ st, deliver dnsip pend oracle w c =
      some { is := if oracle (inputCalls w.trace) then accumulating f p p.length
                   else awaiting f,
             input := [], trace := w.trace ++ [Event.icb_input (delivered p)],
             stores := st } := by
  unfold deliver icbd_dispatch
  simp only [hin, List.nil_append]
  cases k with
  | zero =>
    simp only [frame, List.drop_zero] at hc
    subst hc
    rw [dispatchLoop_cons _ _ _ _ _ p.length p rfl]
    have := dispatchBody_frame dnsip pend oracle { w with input := p.length :: p } f p []
      his h1 h2
    simp only [List.append_nil] at this
    rw [this]
    cases ho : oracle (inputCalls w.trace) with
    | true =>
      simp only [if_true]
      exact ⟨_, rfl⟩
    | false =>
      simp only [Bool.false_eq_true, if_false]
      rw [dispatchLoop_nil _ _ _ _ _ rfl]
      exact ⟨_, rfl⟩
  | succ k1 =>
    simp only [frame, List.drop_succ_cons] at hc
    simp only [stateAt] at his
    have hne : c ≠ [] := by
      intro h0
      rw [h0] at hc
      have := congrArg List.length hc
      simp only [List.length_drop, List.length_nil] at this
      omega
    obtain ⟨b, c1, hbc⟩ := List.exists_cons_of_ne_nil hne
    subst hbc
    rw [dispatchLoop_cons _ _ _ _ _ b c1 rfl]
    have hz : (w.is.length == 0) = false := by
      rw [his]
      simp only [accumulating, beq_eq_false_iff_ne, ne_eq]
      omega
    unfold dispatchBody
    simp only [hz, Bool.false_eq_true, if_false]
    have := dispatchRead_full oracle { w with input := b :: c1 } f p [] k1
      his (by simp [hc]) (by omega) (by unfold ICB_MSGSIZE; omega)
    rw [this]
    cases ho : oracle (inputCalls w.trace) with
    | true =>
      simp only [if_true]
      exact ⟨_, rfl⟩
    | false =>
      simp only [Bool.false_eq_true, if_false]
      rw [dispatchLoop_nil _ _ _ _ _ rfl]
      exact ⟨_, rfl⟩

theorem feed_empty_chunks (dnsip pend : Nat) (oracle : Nat → Bool) :
    ∀ (cs : List (List Nat)) (w : World), joinChunks cs = [] → w.input = [] →
      feed dnsip pend oracle cs w = some w := by
  intro cs
  induction cs with
  | nil => intro w _ _; rfl
  | cons c cs ih =>
    intro w hj hin
    simp only [joinChunks, List.append_eq_nil] at hj
    obtain ⟨hc, hcs⟩ := hj
    subst hc
    have : deliver dnsip pend oracle w [] = some w := by
      unfold deliver icbd_dispatch
      rw [dispatchLoop_nil _ _ _ _ _ (by simp [hin])]
      cases w
      simp_all
    simp only [feed, this]
    exact ih w hcs hin

theorem feed_frame (dnsip pend : Nat) (oracle : Nat → Bool) (f : Nat) (p : List Nat)
    (h1 : 1 ≤ p.length) (h2 : p.length ≤ 255) :
    ∀ (cs : List (List Nat)) (k : Nat) (w : World),
      w.is = stateAt f p k → w.input = [] → k ≤ p.length →
      joinChunks cs = (frame p).drop k →
      ∃ st, feed dnsip pend oracle cs w =
        some { is := if oracle (inputCalls w.trace) then accumulating f p p.length
                     else awaiting f,
               input := [], trace := w.trace ++ [Event.icb_input (delivered p)],
               stores := st } := by
  intro cs
  induction cs with
  | nil =>
    intro k w _ _ hk hj
    simp only [joinChunks] at hj
    have := congrArg List.length hj
    simp only [List.length_nil, frame, List.length_drop, List.length_cons] at this
    omega
  | cons c cs ih =>
    intro k w his hin hk hj
    simp only [joinChunks] at hj
    by_cases hcs : joinChunks cs = []
    · rw [hcs, List.append_nil] at hj
      obtain ⟨st, hst⟩ := deliver_full dnsip pend oracle f p c k w his hin hj.symm hk h1 h2
      refine ⟨st, ?_⟩
      simp only [feed, hst]
      exact feed_empty_chunks dnsip pend oracle cs _ hcs rfl
    · obtain ⟨st, hst⟩ := deliver_short dnsip pend oracle f p c (joinChunks cs) k w his hin
        hj.symm hcs h2
      have hlen := congrArg List.length hj
      simp only [List.length_append, frame, List.length_drop, List.length_cons] at hlen
      have hpos : 0 < (joinChunks cs).length := List.length_pos.mpr hcs
      have hj2 : joinChunks cs = (frame p).drop (k + c.length) := by
        rw [← List.drop_drop, ← hj, List.drop_left]
      obtain ⟨st2, hst2⟩ := ih (k + c.length)
        { is := stateAt f p (k + c.length), input := [], trace := w.trace, stores := st }
        rfl rfl (by omega) hj2
      refine ⟨st2, ?_⟩
      simp only [feed, hst]
      exact hst2

/-! ## Framing: chunked delivery, the zero length byte, whole frames, the invariant -/

theorem delivered_take (p : List Nat) (h : p.length < ICB_MSGSIZE) :
    (delivered p).take (p.length + 1) = p ++ [0] := by
  unfold delivered
  rw [List.take_append_eq_append_take]
  have e : ICB_MSGSIZE - p.length = (ICB_MSGSIZE - p.length - 1) + 1 := by omega
  rw [List.take_of_length_le (by omega), e, List.replicate_succ]
  simp

theorem icbd_drop_trace (dnsip pend : Nat) (w : World) (reason : Option String) :
    (icbd_drop dnsip pend w reason).trace
      = w.trace ++ dropEvents reason (!ISSETF w.is.flags dnsip) := by
  unfold icbd_drop dropEvents
  cases h : ISSETF w.is.flags dnsip <;> cases reason <;> simp [h]

theorem icbd_drop_input (dnsip pend : Nat) (w : World) (reason : Option String) :
    (icbd_drop dnsip pend w reason).input = w.input := by
  unfold icbd_drop
  simp only
  split_ifs <;> rfl

theorem inputsSeen_append (a b : List Event) :
    inputsSeen (a ++ b) = inputsSeen a ++ inputsSeen b := by
  induction a with
  | nil => rfl
  | cons e a ih => cases e <;> simp [inputsSeen, ih]

theorem inputsSeen_dropEvents (reason : Option String) (freed : Bool) :
    inputsSeen (dropEvents reason freed) = [] := by
  cases reason <;> cases freed <;> rfl

theorem inputsSeen_inputEvents (ps : List (List Nat)) :
    inputsSeen (inputEvents ps) = ps.map delivered := by
  induction ps with
  | nil => rfl
  | cons p ps ih =>
    simp only [inputEvents, List.map_cons, inputsSeen, List.cons.injEq, true_and]
    exact ih

theorem dispatchLoop_zero_byte (dnsip pend : Nat) (oracle : Nat → Bool) (fuel : Nat)
    (w : World) (rest : List Nat) (hlen : w.is.length = 0) (hin : w.input = 0 :: rest) :
    dispatchLoop dnsip pend oracle (fuel + 1) w
      = some (icbd_drop dnsip pend { w with input := rest } (some "invalid packet")) := by
  rw [dispatchLoop_cons _ _ _ _ _ 0 rest hin]
  unfold dispatchBody
  simp [hlen]

/-- C1: for every payload of L bytes, 1 ≤ L ≤ 255, and every way of cutting
its frame (the length byte, then the payload) into chunks delivered one per
read callback to a session in the awaiting-length state (length 0, rlen 0,
buffer all zero, input buffer empty), whatever `icb_input` answers: the
callbacks return, the only outside call made is one `icb_input`, it sees the
payload followed by NULs, and the trace and the session memory are those of
the delivery of the whole frame in one callback. Chunks of one byte, a chunk
holding only the length byte, and even empty chunks are covered. -/
theorem icbd_dispatch_reassembly (dnsip pend : Nat) (oracle : Nat → Bool) (f : Nat)
    (w : World) (payload : List Nat) (chunks : List (List Nat))
    (his : w.is = awaiting f) (hin : w.input = [])
    (h1 : 1 ≤ payload.length) (h2 : payload.length ≤ 255)
    (hj : joinChunks chunks = frame payload) :
    ∃ w1 w2, feed dnsip pend oracle chunks w = some w1 ∧
      feed dnsip pend oracle [frame payload] w = some w2 ∧
      w1.trace = w.trace ++ [Event.icb_input (delivered payload)] ∧
      inputsSeen w1.trace = inputsSeen w.trace ++ [delivered payload] ∧
      inputCalls w1.trace = inputCalls w.trace + 1 ∧
      (delivered payload).take (payload.length + 1) = payload ++ [0] ∧
      w2.trace = w1.trace ∧ w2.is = w1.is ∧ w1.input = [] ∧ w2.input = [] := by
  obtain ⟨st1, e1⟩ := feed_frame dnsip pend oracle f payload h1 h2 chunks 0 w
    his hin (Nat.zero_le _) (by simpa using hj)
  obtain ⟨st2, e2⟩ := feed_frame dnsip pend oracle f payload h1 h2 [frame payload] 0 w
    his hin (Nat.zero_le _) (by simp [joinChunks])
  refine ⟨_, _, e1, e2, rfl, ?_, ?_, ?_, rfl, rfl, rfl, rfl⟩
  · simp [inputsSeen_append, inputsSeen]
  · exact inputCalls_snoc _ _
  · exact delivered_take payload (by unfold ICB_MSGSIZE; omega)

/-- Witness of C1: the frame of the payload 7, 8 delivered one byte at a time
to a new session. -/
theorem icbd_dispatch_reassembly_witness :
    ∃ w1 w2, feed 64 128 (fun _ => false) [[2], [7], [8]] freshWorld = some w1 ∧
      feed 64 128 (fun _ => false) [frame [7, 8]] freshWorld = some w2 ∧
      w1.trace = freshWorld.trace ++ [Event.icb_input (delivered [7, 8])] ∧
      inputsSeen w1.trace = inputsSeen freshWorld.trace ++ [delivered [7, 8]] ∧
      inputCalls w1.trace = inputCalls freshWorld.trace + 1 ∧
      (delivered [7, 8]).take ([7, 8].length + 1) = [7, 8] ++ [0] ∧
      w2.trace = w1.trace ∧ w2.is = w1.is ∧ w1.input = [] ∧ w2.input = [] :=
  icbd_dispatch_reassembly 64 128 (fun _ => false) 0 freshWorld [7, 8] [[2], [7], [8]]
    rfl rfl (by decide) (by decide) (by decide)

/-- C2: a zero length byte ends the session. Whenever the loop of
`icbd_dispatch` is entered with `is->length == 0` and a 0 as the next input
byte, it returns the state `icbd_drop` leaves for the reason "invalid
packet": the trace grows by the events of that drop only, so `icb_input` is
called neither for that byte nor for the input behind it, which stays unread,
and nothing is done to the session after the drop. This holds at the start of
a callback and after any sequence of whole frames that `icb_input` accepted
in the same callback. -/
theorem icbd_dispatch_zero_length (dnsip pend : Nat) (oracle : Nat → Bool)
    (w : World) (rest : List Nat) (hlen : w.is.length = 0) (hin : w.input = 0 :: rest) :
    (∀ fuel, dispatchLoop dnsip pend oracle (fuel + 1) w
        = some (icbd_drop dnsip pend { w with input := rest } (some "invalid packet"))) ∧
    icbd_dispatch dnsip pend oracle w
        = some (icbd_drop dnsip pend { w with input := rest } (some "invalid packet")) ∧
    (icbd_drop dnsip pend { w with input := rest } (some "invalid packet")).trace
        = w.trace ++ dropEvents (some "invalid packet") (!ISSETF w.is.flags dnsip) ∧
    inputsSeen (icbd_drop dnsip pend { w with input := rest } (some "invalid packet")).trace
        = inputsSeen w.trace ∧
    (icbd_drop dnsip pend { w with input := rest } (some "invalid packet")).input = rest ∧
    (∀ (ps : List (List Nat)) (w0 : World),
      (∀ p ∈ ps, 1 ≤ p.length ∧ p.length ≤ 255) →
      (∀ k, k < ps.length → oracle (inputCalls w0.trace + k) = false) →
      w0.is = awaiting w.is.flags → w0.input = frames ps ++ 0 :: rest →
      ∃ st, icbd_dispatch dnsip pend oracle w0
        = some (icbd_drop dnsip pend
            { is := awaiting w.is.flags, input := rest,
              trace := w0.trace ++ inputEvents ps, stores := st }
            (some "invalid packet"))) := by
  refine ⟨fun fuel => dispatchLoop_zero_byte _ _ _ _ _ _ hlen hin, ?_, ?_, ?_, ?_, ?_⟩
  · unfold icbd_dispatch
    exact dispatchLoop_zero_byte _ _ _ _ _ _ hlen hin
  · exact icbd_drop_trace _ _ _ _
  · rw [icbd_drop_trace, inputsSeen_append, inputsSeen_dropEvents]
    simp
  · rw [icbd_drop_input]
  · intro ps w0 hwf hor his0 hin0
    have hfl : ps.length ≤ (frames ps).length := frames_length_ge ps
    obtain ⟨st, hst⟩ := dispatchLoop_frames dnsip pend oracle w.is.flags (0 :: rest) ps
      (w0.input.length + 1) w0 hwf hor his0 hin0 (by rw [hin0]; simp; omega)
    refine ⟨st, ?_⟩
    unfold icbd_dispatch
    rw [hst]
    have e : w0.input.length + 1 - ps.length = (w0.input.length - ps.length) + 1 := by
      rw [hin0]; simp; omega
    rw [e]
    exact dispatchLoop_zero_byte _ _ _ _ _ _ rfl rfl

/-- Witness of C2: a zero byte first in the buffer, and a zero byte behind the
frame of the payload 9. -/
theorem icbd_dispatch_zero_length_witness :
    icbd_dispatch 64 128 (fun _ => false) { freshWorld with input := [0, 5] }
      = some (icbd_drop 64 128 { freshWorld with input := [5] } (some "invalid packet")) ∧
    ∃ st, icbd_dispatch 64 128 (fun _ => false) { freshWorld with input := [1, 9, 0, 5] }
      = some (icbd_drop 64 128
          { is := awaiting 0, input := [5], trace := [] ++ inputEvents [[9]], stores := st }
          (some "invalid packet")) :=
  ⟨(icbd_dispatch_zero_length 64 128 (fun _ => false)
      { freshWorld with input := [0, 5] } [5] rfl rfl).2.1,
   (icbd_dispatch_zero_length 64 128 (fun _ => false)
      { freshWorld with input := [0, 5] } [5] rfl rfl).2.2.2.2.2 [[9]]
      { freshWorld with input := [1, 9, 0, 5] } (by decide) (fun _ _ => rfl) rfl rfl⟩

/-- C3: when the input buffer of a session in the awaiting-length state holds
exactly N whole frames (each a length byte in 1..255 and that many payload
bytes, N ≥ 0) and `icb_input` answers 0 to the N calls, one invocation of
`icbd_dispatch` returns, having called `icb_input` exactly N times and
nothing else, the k-th call on the k-th payload followed by NULs, in arrival
order; the session is back in the awaiting-length state and the input buffer
is empty. -/
theorem icbd_dispatch_frames (dnsip pend : Nat) (oracle : Nat → Bool) (f : Nat)
    (ps : List (List Nat)) (w : World)
    (hwf : ∀ p ∈ ps, 1 ≤ p.length ∧ p.length ≤ 255)
    (hor : ∀ k, k < ps.length → oracle (inputCalls w.trace + k) = false)
    (his : w.is = awaiting f) (hin : w.input = frames ps) :
    ∃ w1, icbd_dispatch dnsip pend oracle w = some w1 ∧
      w1.trace = w.trace ++ ps.map (fun p => Event.icb_input (delivered p)) ∧
      inputsSeen w1.trace = inputsSeen w.trace ++ ps.map delivered ∧
      inputCalls w1.trace = inputCalls w.trace + ps.length ∧
      (∀ p ∈ ps, (delivered p).take (p.length + 1) = p ++ [0]) ∧
      w1.is = awaiting f ∧ w1.input = [] := by
  obtain ⟨st, hst⟩ := dispatchLoop_frames dnsip pend oracle f [] ps
    (w.input.length + 1) w hwf hor his (by simpa using hin)
    (by rw [hin]; have := frames_length_ge ps; omega)
  refine ⟨{ is := awaiting f, input := [], trace := w.trace ++ inputEvents ps, stores := st },
    ?_, rfl, ?_, ?_, ?_, rfl, rfl⟩
  · unfold icbd_dispatch
    rw [hst]
    exact dispatchLoop_nil _ _ _ _ _ rfl
  · simp only [inputsSeen_append, inputsSeen_inputEvents]
  · exact inputCalls_inputEvents _ _
  · intro p hp
    exact delivered_take p (by have := (hwf p hp).2; unfold ICB_MSGSIZE; omega)

/-- Witness of C3: two frames, payloads 7, 8 and 9, in one buffer. -/
theorem icbd_dispatch_frames_witness :
    ∃ w1, icbd_dispatch 64 128 (fun _ => false) { freshWorld with input := [2, 7, 8, 1, 9] }
        = some w1 ∧
      w1.trace = [] ++ [[7, 8], [9]].map (fun p => Event.icb_input (delivered p)) ∧
      inputsSeen w1.trace = [] ++ [[7, 8], [9]].map delivered ∧
      inputCalls w1.trace = 0 + 2 ∧
      (∀ p ∈ [[7, 8], [9]], (delivered p).take (p.length + 1) = p ++ [0]) ∧
      w1.is = awaiting 0 ∧ w1.input = [] :=
  icbd_dispatch_frames 64 128 (fun _ => false) 0 [[7, 8], [9]]
    { freshWorld with input := [2, 7, 8, 1, 9] } (by decide) (fun _ _ => rfl) rfl rfl

theorem run_inv (dnsip pend : Nat) (oracle : Nat → Bool) :
    ∀ (acts : List Action) (w : World), Inv w →
      ∃ w1, run dnsip pend oracle acts w = some w1 ∧ Inv w1 := by
  intro acts
  induction acts with
  | nil => intro w h; exact ⟨w, rfl, h⟩
  | cons a acts ih =>
    intro w h
    cases a with
    | recv c =>
      obtain ⟨w1, e1, i1⟩ := icbd_dispatch_inv dnsip pend oracle
        { w with input := w.input ++ c } h
      obtain ⟨w2, e2, i2⟩ := ih w1 i1
      refine ⟨w2, ?_, i2⟩
      simp only [run, deliver, e1]
      exact e2
    | drop r =>
      obtain ⟨w2, e2, i2⟩ := ih (icbd_drop dnsip pend w r)
        (icbd_drop_inv dnsip pend w r ⟨h.2.2.1, h.2.2.2⟩)
      exact ⟨w2, by simp only [run]; exact e2, i2⟩

/-- C10: from a zeroed session (with any flags set on it since), after any
history made of input arriving in any chunks (each followed by a run of
`icbd_dispatch`, whatever `icb_input` answers) and of calls of `icbd_drop`,
every callback has returned, the expected length is 0 or in 1..255, the
received count does not exceed it, and every store `icbd_dispatch` made into
`is->buffer` (the bytes read, the NUL terminator and the `memset`) lies inside
the `ICB_MSGSIZE` = 256 bytes of the buffer. -/
theorem icbd_framing_invariant (dnsip pend : Nat) (oracle : Nat → Bool) (f : Nat)
    (acts : List Action) :
    ∃ w, run dnsip pend oracle acts { freshWorld with is := awaiting f } = some w ∧
      (w.is.length = 0 ∨ (1 ≤ w.is.length ∧ w.is.length ≤ 255)) ∧
      w.is.rlen ≤ w.is.length ∧
      w.is.buffer.length = ICB_MSGSIZE ∧ ICB_MSGSIZE = 256 ∧
      ∀ s ∈ w.stores, ∀ i, s.1 ≤ i → i < s.1 + s.2 → i < ICB_MSGSIZE := by
  obtain ⟨w, e, h1, h2, h3, h4⟩ := run_inv dnsip pend oracle acts
    { freshWorld with is := awaiting f }
    ⟨by simp [awaiting], by simp [awaiting], by simp [awaiting], by simp [freshWorld]⟩
  refine ⟨w, e, by omega, h2, h3, rfl, ?_⟩
  intro s hs i _ hi
  have := h4 s hs
  omega

/-! ## Session teardown and the listener -/
theorem ISSETF_SETF (t f : Nat) : SETF t f &&& f = f := by
  unfold SETF
  apply Nat.eq_of_testBit_eq
  intro i
  simp only [Nat.testBit_and, Nat.testBit_or]
  cases t.testBit i <;> cases f.testBit i <;> rfl

theorem ISSETF_CLRF (t f : Nat) : ISSETF (CLRF t f) f = false := by
  have : CLRF t f &&& f = 0 := by
    unfold CLRF
    apply Nat.eq_of_testBit_eq
    intro i
    simp only [Nat.testBit_and, Nat.testBit_xor, Nat.zero_testBit]
    cases t.testBit i <;> cases f.testBit i <;> rfl
  unfold ISSETF
  simp [this]

theorem frees_append (a b : List Event) : frees (a ++ b) = frees a + frees b := by
  unfold frees
  simp

theorem frees_dropEvents (reason : Option String) (freed : Bool) :
    frees (dropEvents reason freed) = if freed then 1 else 0 := by
  cases reason <;> cases freed <;> rfl

theorem icbd_drop_flags (dnsip pend : Nat) (w : World) (reason : Option String) :
    (icbd_drop dnsip pend w reason).is.flags
      = if ISSETF w.is.flags dnsip then SETF w.is.flags pend else w.is.flags := by
  unfold icbd_drop
  cases h : ISSETF w.is.flags dnsip <;> simp [h]

/-- C4: for every session and every reason (none or a text), `icbd_drop`
tells `icb_remove`, closes the descriptor and frees the buffered endpoint,
and frees the session exactly when `ICB_SF_DNSINPROGRESS` is not set; when it
is set, the session is not freed and `ICB_SF_PENDINGDROP` is set in its flags.
With resolution outstanding and no drop pending, a drop and the completion of
the resolution, in either order, free the session exactly once between
them. -/
theorem icbd_drop_defers_free (dnsip pend : Nat) (w : World) (reason : Option String) :
    (icbd_drop dnsip pend w reason).trace
        = w.trace ++ dropEvents reason (!ISSETF w.is.flags dnsip) ∧
    (Event.close ∈ dropEvents reason (!ISSETF w.is.flags dnsip) ∧
      Event.bufferevent_free ∈ dropEvents reason (!ISSETF w.is.flags dnsip)) ∧
    (Event.free ∈ dropEvents reason (!ISSETF w.is.flags dnsip)
        ↔ ISSETF w.is.flags dnsip = false) ∧
    (ISSETF w.is.flags dnsip = false →
      (icbd_drop dnsip pend w reason).is.flags = w.is.flags ∧
      frees (icbd_drop dnsip pend w reason).trace = frees w.trace + 1) ∧
    (ISSETF w.is.flags dnsip = true →
      (icbd_drop dnsip pend w reason).is.flags = SETF w.is.flags pend ∧
      (icbd_drop dnsip pend w reason).is.flags &&& pend = pend ∧
      frees (icbd_drop dnsip pend w reason).trace = frees w.trace) ∧
    (ISSETF w.is.flags dnsip = true → ISSETF w.is.flags pend = false → pend ≠ 0 →
      frees (dns_done dnsip pend (icbd_drop dnsip pend w reason)).trace = frees w.trace + 1 ∧
      frees (icbd_drop dnsip pend (dns_done dnsip pend w) reason).trace
        = frees w.trace + 1) := by
  refine ⟨icbd_drop_trace _ _ _ _, ?_, ?_, ?_, ?_, ?_⟩
  · cases reason <;> simp [dropEvents]
  · cases reason <;> cases h : ISSETF w.is.flags dnsip <;> simp [dropEvents]
  · intro h
    refine ⟨by rw [icbd_drop_flags]; simp [h], ?_⟩
    rw [icbd_drop_trace, frees_append, frees_dropEvents]
    simp [h]
  · intro h
    have hf : (icbd_drop dnsip pend w reason).is.flags = SETF w.is.flags pend := by
      rw [icbd_drop_flags]; simp [h]
    refine ⟨hf, by rw [hf]; exact ISSETF_SETF _ _, ?_⟩
    rw [icbd_drop_trace, frees_append, frees_dropEvents]
    simp [h]
  · intro h hp hne
    constructor
    · have hf : (icbd_drop dnsip pend w reason).is.flags = SETF w.is.flags pend := by
        rw [icbd_drop_flags]; simp [h]
      have hs : ISSETF (icbd_drop dnsip pend w reason).is.flags pend = true := by
        unfold ISSETF
        rw [hf, ISSETF_SETF]
        simpa using hne
      unfold dns_done
      simp only [hs, if_true]
      rw [frees_append, icbd_drop_trace, frees_append, frees_dropEvents]
      simp [h, frees]
    · have hd : dns_done dnsip pend w
          = { w with is := { w.is with flags := CLRF w.is.flags dnsip } } := by
        unfold dns_done
        simp [hp]
      rw [icbd_drop_trace, frees_append, frees_dropEvents, hd]
      simp [ISSETF_CLRF]

/-- Witness of C4: masks 0x40 and 0x80, a new session with resolution in
progress, dropped on end of file. -/
theorem icbd_drop_defers_free_witness :
    frees (icbd_drop 64 128 { freshWorld with is := awaiting 64 } none).trace = 0 ∧
    frees (dns_done 64 128 (icbd_drop 64 128 { freshWorld with is := awaiting 64 } none)).trace
      = 1 ∧
    frees (icbd_drop 64 128 (dns_done 64 128 { freshWorld with is := awaiting 64 }) none).trace
      = 1 :=
  ⟨((icbd_drop_defers_free 64 128 { freshWorld with is := awaiting 64 } none).2.2.2.2.1
      (by decide)).2.2,
   ((icbd_drop_defers_free 64 128 { freshWorld with is := awaiting 64 } none).2.2.2.2.2
      (by decide) (by decide) (by decide)).1,
   ((icbd_drop_defers_free 64 128 { freshWorld with is := awaiting 64 } none).2.2.2.2.2
      (by decide) (by decide) (by decide)).2⟩

theorem listenerStep_inv (l : icbd_listener) (s : ListenerStep)
    (h : ¬(l.ev = true ∧ l.pause.isSome = true)) :
    ¬((listenerStep l s).ev = true ∧ (listenerStep l s).pause.isSome = true) := by
  cases s with
  | readable r =>
    cases hev : l.ev with
    | false => simp [listenerStep, hev]
    | true =>
      rcases r with _ | e
      · simpa [listenerStep, hev, icbd_accept] using h
      · cases e <;> simp [listenerStep, hev, icbd_accept] <;> simpa [hev] using h
  | expire =>
    cases hp : l.pause with
    | none => simp [listenerStep, hp]
    | some t => simp [listenerStep, hp, icbd_paused]

theorem listenerRun_inv (steps : List ListenerStep) :
    ∀ l : icbd_listener, ¬(l.ev = true ∧ l.pause.isSome = true) →
      ¬((listenerRun l steps).ev = true ∧ (listenerRun l steps).pause.isSome = true) := by
  induction steps with
  | nil => intro l h; exact h
  | cons s rest ih => intro l h; exact ih _ (listenerStep_inv l s h)

/-- C5: in every state the listener reaches from the one `main` sets up, by
any sequence of read events (with any outcome of `accept`) and timer
expiries, the read event is not registered while the pause timer is pending.
A step takes a registered read event away only if it is `icbd_accept` failing
with `EMFILE` or `ENFILE`, and then the timer is armed for one second; every
other outcome of `accept` leaves the listener as it was; the expiry of the
timer registers the read event again and leaves no timer pending. -/
theorem listener_backpressure (steps : List ListenerStep) :
    ¬((listenerRun listenerInit steps).ev = true ∧
        (listenerRun listenerInit steps).pause.isSome = true) ∧
    (∀ (l : icbd_listener) (s : ListenerStep), l.ev = true → (listenerStep l s).ev = false →
      (s = ListenerStep.readable (AcceptResult.fail Errno.EMFILE) ∨
        s = ListenerStep.readable (AcceptResult.fail Errno.ENFILE)) ∧
      (listenerStep l s).pause = some (1, 0)) ∧
    (∀ l : icbd_listener, l.ev = true →
      listenerStep l (ListenerStep.readable (AcceptResult.fail Errno.EMFILE))
        = { ev := false, pause := some (1, 0) } ∧
      listenerStep l (ListenerStep.readable (AcceptResult.fail Errno.ENFILE))
        = { ev := false, pause := some (1, 0) }) ∧
    (∀ (l : icbd_listener) (r : AcceptResult), r ≠ AcceptResult.fail Errno.EMFILE →
      r ≠ AcceptResult.fail Errno.ENFILE → listenerStep l (ListenerStep.readable r) = l) ∧
    (∀ l : icbd_listener, l.pause.isSome = true →
      listenerStep l ListenerStep.expire = { ev := true, pause := none }) := by
  refine ⟨listenerRun_inv steps listenerInit (by simp [listenerInit]), ?_, ?_, ?_, ?_⟩
  · intro l s hev hoff
    cases s with
    | readable r =>
      rcases r with _ | e
      · simp [listenerStep, hev, icbd_accept] at hoff
      · cases e <;> simp [listenerStep, hev, icbd_accept] at hoff ⊢
    | expire =>
      cases hp : l.pause with
      | none => simp [listenerStep, hp, hev] at hoff
      | some t => simp [listenerStep, hp, icbd_paused] at hoff
  · intro l hev
    simp [listenerStep, hev, icbd_accept]
  · intro l r h1 h2
    rcases r with _ | e
    · simp [listenerStep, icbd_accept]
    · cases e <;> simp_all [listenerStep, icbd_accept]
  · intro l hp
    cases hq : l.pause with
    | none => simp [hq] at hp
    | some t => simp [listenerStep, hq, icbd_paused]

/-! ## The logger -/
theorem cstr_terminated (s rest : List Nat) (hs : 0 ∉ s) : cstr (s ++ 0 :: rest) = s := by
  unfold cstr
  induction s with
  | nil => simp
  | cons a s ih =>
    have ha : a ≠ 0 := fun h => hs (by simp [h])
    have hs2 : 0 ∉ s := fun h => hs (List.mem_cons_of_mem _ h)
    simp only [List.cons_append, List.takeWhile_cons, bne_iff_ne, ne_eq, ha, not_false_eq_true,
      if_true, List.cons.injEq, true_and]
    exact ih hs2

theorem storeAt_zero_terminated (dst s : List Nat) (h : s.length < dst.length) :
    ∃ rest, storeAt dst 0 (s ++ [0]) = s ++ 0 :: rest := by
  refine ⟨(dst.drop (s.length + 1)).take (dst.length - (s.length + 1)), ?_⟩
  unfold storeAt
  simp only [List.take_zero, List.nil_append, Nat.zero_add, List.length_append,
    List.length_singleton, List.append_assoc, List.singleton_append]
  rw [List.take_append_eq_append_take, List.take_of_length_le (by omega)]
  congr 1
  have e : dst.length - s.length = (dst.length - (s.length + 1)) + 1 := by omega
  rw [e, List.take_succ_cons]

theorem strlcpy_cstr (dst s : List Nat) (size : Nat) (hs : 0 ∉ s) (hlen : s.length < size)
    (hd : dst.length = size) : cstr (strlcpy dst (s ++ [0]) size) = s := by
  have hne : (size == 0) = false := by
    simp only [beq_eq_false_iff_ne, ne_eq]; omega
  unfold strlcpy
  simp only [hne, Bool.false_eq_true, if_false]
  have hc : cstr (s ++ [0]) = s := cstr_terminated s [] hs
  rw [hc, List.take_of_length_le (by omega)]
  obtain ⟨rest, hr⟩ := storeAt_zero_terminated dst s (by omega)
  rw [hr]
  exact cstr_terminated s rest hs

/-- C6: for every timestamp, every group shorter than `ICB_MAXGRPLEN`,
every nickname shorter than `ICB_MAXNICKLEN` and every message that fits the
512-byte scratch buffer with its NUL (whatever the header and the scratch
buffer held before), `logger` hands `writev` a header declaring
`strlen(message) + 1` payload bytes and the message with its NUL; when
`logger_dispatch` reads just that in one `readv`, the header fields read back
as the group and the nickname, no diagnostic is logged, the process goes on,
and the line written is "nickname@group: message" and a newline. -/
theorem logger_roundtrip (maxgrp maxnick : Nat) (e0 : icbd_logentry) (buf0 : List Nat)
    (timestamp : Int) (group nick what : List Nat)
    (hg0 : 0 ∉ group) (hn0 : 0 ∉ nick) (hw0 : 0 ∉ what)
    (hg : group.length < maxgrp) (hn : nick.length < maxnick)
    (hw : what.length + 1 ≤ LOGBUF)
    (heg : e0.group.length = maxgrp) (hen : e0.nick.length = maxnick)
    (hbuf : buf0.length = LOGBUF) :
    (logger maxgrp maxnick e0 timestamp (group ++ [0]) (nick ++ [0]) (what ++ [0])).1.timestamp
        = timestamp ∧
    cstr (logger maxgrp maxnick e0 timestamp (group ++ [0]) (nick ++ [0]) (what ++ [0])).1.group
        = group ∧
    cstr (logger maxgrp maxnick e0 timestamp (group ++ [0]) (nick ++ [0]) (what ++ [0])).1.nick
        = nick ∧
    (logger maxgrp maxnick e0 timestamp (group ++ [0]) (nick ++ [0]) (what ++ [0])).1.length
        = what.length + 1 ∧
    (logger maxgrp maxnick e0 timestamp (group ++ [0]) (nick ++ [0]) (what ++ [0])).2
        = what ++ [0] ∧
    logger_dispatch EV_READ buf0
        (Readv.full
          (logger maxgrp maxnick e0 timestamp (group ++ [0]) (nick ++ [0]) (what ++ [0])).1
          (logger maxgrp maxnick e0 timestamp (group ++ [0]) (nick ++ [0]) (what ++ [0])).2)
      = { syslog := [],
          stderr := some (nick ++ [64] ++ group ++ [58, 32] ++ what ++ [10]),
          exit := none } := by
  have hcg := strlcpy_cstr e0.group group maxgrp hg0 hg heg
  have hcn := strlcpy_cstr e0.nick nick maxnick hn0 hn hen
  have hsl : strlen (what ++ [0]) = what.length := by
    unfold strlen
    rw [cstr_terminated what [] hw0]
  have hpay : (what ++ [0]).take (what.length + 1) = what ++ [0] :=
    List.take_of_length_le (by simp)
  have hbufc : cstr (storeAt buf0 0 ((what ++ [0]).take LOGBUF)) = what := by
    rw [List.take_of_length_le (by simp; omega)]
    obtain ⟨rest, hr⟩ := storeAt_zero_terminated buf0 what (by omega)
    rw [hr]
    exact cstr_terminated what rest hw0
  have hnd : ¬ (LOGBUF < what.length + 1) := by omega
  refine ⟨rfl, hcg, hcn, ?_, ?_, ?_⟩
  · simp only [logger, hsl]
  · simp only [logger, hsl, hpay]
  · unfold logger_dispatch
    simp only [logger, hsl, hpay, bne_self_eq_false, Bool.false_eq_true, if_false, hcg, hcn,
      hbufc, hnd]

/-- Witness of C6: group "1", nickname "alice", message "hello". -/
theorem logger_roundtrip_witness :
    cstr (logger 32 32 blankHeader 1234 (ascii "1" ++ [0]) (ascii "alice" ++ [0])
      (ascii "hello" ++ [0])).1.group = ascii "1" ∧
    cstr (logger 32 32 blankHeader 1234 (ascii "1" ++ [0]) (ascii "alice" ++ [0])
      (ascii "hello" ++ [0])).1.nick = ascii "alice" ∧
    logger_dispatch EV_READ (List.replicate LOGBUF 0)
        (Readv.full
          (logger 32 32 blankHeader 1234 (ascii "1" ++ [0]) (ascii "alice" ++ [0])
            (ascii "hello" ++ [0])).1
          (logger 32 32 blankHeader 1234 (ascii "1" ++ [0]) (ascii "alice" ++ [0])
            (ascii "hello" ++ [0])).2)
      = { syslog := [], stderr := some (ascii "alice@1: hello\n"), exit := none } :=
  ⟨(logger_roundtrip 32 32 blankHeader (List.replicate LOGBUF 0) 1234
      (ascii "1") (ascii "alice") (ascii "hello") (by decide) (by decide) (by decide)
      (by decide) (by decide) (by decide) (by decide) (by decide) (by simp)).2.1,
   (logger_roundtrip 32 32 blankHeader (List.replicate LOGBUF 0) 1234
      (ascii "1") (ascii "alice") (ascii "hello") (by decide) (by decide) (by decide)
      (by decide) (by decide) (by decide) (by decide) (by decide) (by simp)).2.2.1,
   (logger_roundtrip 32 32 blankHeader (List.replicate LOGBUF 0) 1234
      (ascii "1") (ascii "alice") (ascii "hello") (by decide) (by decide) (by decide)
      (by decide) (by decide) (by decide) (by decide) (by decide) (by simp)).2.2.2.2.2⟩

theorem lor_ne_zero_of_left (x y : Nat) (h : x ≠ 0) : x ||| y ≠ 0 := by
  intro h0
  apply h
  apply Nat.eq_of_testBit_eq
  intro i
  have := congrArg (fun n => n.testBit i) h0
  simp only [Nat.testBit_or, Nat.zero_testBit, Bool.or_eq_false_iff] at this
  simp [this.1]

theorem lor_ne_zero_of_right (x y : Nat) (h : y ≠ 0) : x ||| y ≠ 0 := by
  intro h0
  apply h
  apply Nat.eq_of_testBit_eq
  intro i
  have := congrArg (fun n => n.testBit i) h0
  simp only [Nat.testBit_or, Nat.zero_testBit, Bool.or_eq_false_iff] at this
  simp [this.2]

/-- C8: when the account exists and `stat` of its home directory succeeds
with an owner other than uid 0, or with the group-write or the other-write
bit in the mode, `icbd_restrict` ends the process with `EX_NOPERM` after
`getpwnam`, `stat` and one log line, so before any `chroot` or `setuid`; and
`main`, which runs `icbd_restrict` before `event_dispatch`, ends with that
status without having entered the event loop, where connections are
accepted. -/
theorem icbd_restrict_rejects_unsafe_home (home : String) (env : RestrictEnv) (pw : passwd)
    (hpw : env.getpwnam = some pw) (hst : env.stat_ret ≠ -1)
    (hbad : env.sb.st_uid ≠ 0 ∨ env.sb.st_mode &&& S_IWGRP ≠ 0 ∨
      env.sb.st_mode &&& S_IWOTH ≠ 0) :
    icbd_restrict home env
      = { calls := [Sys.getpwnam ICBD_USER, Sys.stat pw.pw_dir,
                    Sys.syslog "bad directory permissions"],
          exit := some EX_NOPERM } ∧
    (∀ d, Sys.chroot d ∉ (icbd_restrict home env).calls) ∧
    (∀ u, Sys.setuid u ∉ (icbd_restrict home env).calls) ∧
    (main home env).exit = some EX_NOPERM ∧
    Sys.event_dispatch ∉ (main home env).calls := by
  have hcond : (env.sb.st_uid != 0 || (env.sb.st_mode &&& (S_IWGRP ||| S_IWOTH)) != 0) = true := by
    rcases hbad with h | h | h
    · simp [h]
    · have := lor_ne_zero_of_left _ (env.sb.st_mode &&& S_IWOTH) h
      rw [← Nat.and_or_distrib_left] at this
      simp [this]
    · have := lor_ne_zero_of_right (env.sb.st_mode &&& S_IWGRP) _ h
      rw [← Nat.and_or_distrib_left] at this
      simp [this]
  have hs : (env.stat_ret == -1) = false := by simpa using hst
  have hr : icbd_restrict home env
      = { calls := [Sys.getpwnam ICBD_USER, Sys.stat pw.pw_dir,
                    Sys.syslog "bad directory permissions"],
          exit := some EX_NOPERM } := by
    unfold icbd_restrict
    simp only [hpw, hs, hcond, Bool.false_eq_true, if_false, if_true, List.singleton_append,
      List.cons_append, List.nil_append]
  refine ⟨hr, ?_, ?_, ?_, ?_⟩
  · intro d; rw [hr]; simp
  · intro u; rw [hr]; simp
  · unfold main; rw [hr]
  · unfold main; rw [hr]; simp

/-- Witness of C8: a root-owned home directory of mode 0775, group-writable. -/
theorem icbd_restrict_rejects_unsafe_home_witness :
    icbd_restrict "icbd" (sampleEnv 0 509)
      = { calls := [Sys.getpwnam ICBD_USER, Sys.stat "/var/icbd",
                    Sys.syslog "bad directory permissions"],
          exit := some EX_NOPERM } ∧
    (main "icbd" (sampleEnv 0 509)).exit = some EX_NOPERM ∧
    Sys.event_dispatch ∉ (main "icbd" (sampleEnv 0 509)).calls :=
  ⟨(icbd_restrict_rejects_unsafe_home "icbd" (sampleEnv 0 509)
      { pw_name := "_icbd", pw_uid := 700, pw_dir := "/var/icbd" } rfl (by decide)
      (Or.inr (Or.inl (by decide)))).1,
   (icbd_restrict_rejects_unsafe_home "icbd" (sampleEnv 0 509)
      { pw_name := "_icbd", pw_uid := 700, pw_dir := "/var/icbd" } rfl (by decide)
      (Or.inr (Or.inl (by decide)))).2.2.2⟩

/-- C9, what the code does: the result of `chdir(ICBD_HOME)` is not looked
at. With every other step succeeding and that call returning -1,
`icbd_restrict` goes on to `setuid` and `pledge` and returns to `main`, which
enters the event loop. -/
theorem icbd_restrict_ignores_chdir_home :
    (sampleEnv (-1) 493).chdir_home_ret = -1 ∧
    icbd_restrict "icbd" (sampleEnv (-1) 493)
      = { calls := [Sys.getpwnam ICBD_USER, Sys.stat "/var/icbd", Sys.chroot "/var/icbd",
                    Sys.chdir "/", Sys.chdir "icbd", Sys.setuid 700,
                    Sys.pledge "stdio inet rpath dns", Sys.setproctitle "icbd"],
          exit := none } ∧
    Sys.event_dispatch ∈ (main "icbd" (sampleEnv (-1) 493)).calls := by
  refine ⟨rfl, by decide, by decide⟩

end Icbd
